import Mathlib

/-!
Verification development for the sample-editing core of
`src/src/tracks/playabletrack/wavetrack/ui/SampleHandle.cpp`.

Real numbers (`double`/`float` in the source) are embedded as `ℚ`;
pixel coordinates as `ℤ`.  Code external to the reviewed file
(view transforms, clip metadata, buffer accessors, history) is
modelled from the specification's collaborator contracts and marked
`Modelled from the spec:` in its doc comment.
-/

namespace SampleEdit

/-! ## Constants (SampleHandle.cpp lines 34-37) -/

def SMOOTHING_KERNEL_RADIUS : ℤ := 3
def SMOOTHING_BRUSH_RADIUS : ℤ := 5
def SMOOTHING_PROPORTION_MAX : ℚ := 7/10
def SMOOTHING_PROPORTION_MIN : ℚ := 0

/-! ## Geometry and events -/

/-- A screen rectangle (wxRect). -/
structure Rect where
  x : ℤ
  y : ℤ
  width : ℤ
  height : ℤ
deriving Repr, DecidableEq

/-- The fields of a wxMouseEvent / wxMouseState that the source reads. -/
structure MouseEvent where
  x : ℤ
  y : ℤ
  altDown : Bool
  controlDown : Bool
deriving Repr, DecidableEq

/-- TrackPanelMouseEvent: the event together with the cell rectangle. -/
structure TrackPanelMouseEvent where
  event : MouseEvent
  rect : Rect
deriving Repr, DecidableEq

/-! ## View mapping -/

/-- Modelled from the spec: ViewMapper — "stateless utility converting between
screen pixel coordinates, time, and sample index, given a current time/zoom
mapping" (spec 4.1), as an affine transform with leftmost visible time
`origin` and `zoom` pixels per second.  `intervals` models the result of the
external `ZoomInfo::FindIntervals`: maximal pixel runs of constant zoom, as
(starting pixel position, average zoom of the run) pairs, the first starting
at position 0 (the source asserts `it->position == 0`). -/
structure ViewInfo where
  origin : ℚ
  zoom : ℚ
  intervals : List (ℤ × ℚ)
deriving Repr, DecidableEq

/-- Modelled from the spec: `pixelToTime(pixelX, rectOriginX) -> time`, the
affine inverse of the zoom/pan transform (spec 4.1). -/
def ViewInfo.PositionToTime (vi : ViewInfo) (x : ℤ) (originX : ℤ) : ℚ :=
  vi.origin + ((x : ℚ) - (originX : ℚ)) / vi.zoom

/-- The one-argument overload of `PositionToTime` (origin 0), used by `Drag`
on `mLastDragPixel`. -/
def ViewInfo.PositionToTime1 (vi : ViewInfo) (x : ℤ) : ℚ :=
  vi.PositionToTime x 0

/-- Modelled from the spec: `timeToPixel(time) -> pixelX`, the forward
transform (spec 4.1), rounding to the nearest pixel. -/
def ViewInfo.TimeToPosition (vi : ViewInfo) (t : ℚ) : ℤ :=
  ⌊vi.zoom * (t - vi.origin) + 1/2⌋

/-! ## Clips and tracks -/

/-- Modelled from the spec: per-clip data of the external WaveClip —
play region, nominal `rate`, time-stretch factor (`GetStretchRatio` in the
source) and sample count. -/
structure WaveClip where
  playStart : ℚ
  playEnd : ℚ
  rate : ℚ
  stretch : ℚ
  numSamples : ℤ
deriving Repr, DecidableEq

/-- Modelled from the spec: `WaveClip::TimeToSamples` — rounds a clip-relative
time to the nearest exact sample index (spec 4.1, "rounds to the nearest
exact sample boundary ... accounting for the clip's own start offset and
stretch ratio"). -/
def WaveClip.TimeToSamples (c : WaveClip) (t : ℚ) : ℤ :=
  ⌊t * c.rate / c.stretch + 1/2⌋

/-- Modelled from the spec: `WaveClip::SamplesToTime` — the exact time of a
clip-relative sample index. -/
def WaveClip.SamplesToTime (c : WaveClip) (s : ℤ) : ℚ :=
  (s : ℚ) * c.stretch / c.rate

/-- Modelled from the spec: the track metadata external to the reviewed file.
Sample data itself lives in `Project.buffer` (the track buffer is "owned
externally; this core only reads/writes through its narrow accessor
contract", spec 3).  `envelope` is the optional time-varying amplitude
multiplier; `zoomMin`/`zoomMax` are the display amplitude bounds
(WaveformScale); `isLinear`/`dBRange` come from WaveformSettings; `dbOf` and
`dbInv` stand for the external signed-logarithmic display maps used only
when the scale is not linear. -/
structure WaveTrack where
  clips : List WaveClip
  nominalRate : ℚ
  envelope : Option (ℚ → ℚ)
  zoomMin : ℚ
  zoomMax : ℚ
  isLinear : Bool
  dBRange : ℚ
  dbOf : ℚ → ℚ
  dbInv : ℚ → ℚ

/-- Modelled from the spec: `WaveTrack::GetClipAtTime` — the clip whose play
region contains the time, if any. -/
def WaveTrack.GetClipAtTime (wt : WaveTrack) (t : ℚ) : Option WaveClip :=
  wt.clips.find? (fun c => decide (c.playStart ≤ t) && decide (t ≤ c.playEnd))

/-- Modelled from the spec: `WaveTrack::SnapToSample` — rounds to the track's
nominal sample grid (spec 4.1, the no-clip fallback of snapping). -/
def WaveTrack.SnapToSample (wt : WaveTrack) (t : ℚ) : ℚ :=
  (⌊t * wt.nominalRate + 1/2⌋ : ℤ) / wt.nominalRate

/-- Modelled from the spec: `WaveTrack::GetEnvelopeAtTime` — the optional
envelope accessor ("a function from time to a multiplicative amplitude scale
factor; may be absent", spec 3).  The time argument selects which clip's
envelope in the source; here the track carries one optional envelope. -/
def WaveTrack.GetEnvelopeAtTime (wt : WaveTrack) (_t : ℚ) : Option (ℚ → ℚ) :=
  wt.envelope

/-- `adjustTime` (SampleHandle.cpp lines 84-93): round to an exact sample
time — through the clip's own grid when a clip contains the time, else
through the track's nominal grid. -/
def adjustTime (wt : WaveTrack) (time : ℚ) : ℚ :=
  match wt.GetClipAtTime time with
  | none => wt.SnapToSample time
  | some clip =>
      let sampleOffset := clip.TimeToSamples (time - clip.playStart)
      clip.SamplesToTime sampleOffset + clip.playStart

/-- The do-while scan of `SampleResolutionTest` (lines 109-114): starting
from the first interval, advance while the next interval's position is
still `≤ xx`; `prev` ends at the last scanned interval satisfying that.
For intervals sorted by position this is the run containing pixel `xx`. -/
def findPrevInterval (intervals : List (ℤ × ℚ)) (xx : ℤ) : ℤ × ℚ :=
  match intervals with
  | [] => (0, 0)
  | first :: rest => findPrevIntervalGo first rest xx
where
  findPrevIntervalGo (acc : ℤ × ℚ) (rest : List (ℤ × ℚ)) (xx : ℤ) : ℤ × ℚ :=
    match rest with
    | [] => acc
    | i :: is_ => if i.1 ≤ xx then findPrevIntervalGo i is_ xx else acc

/-- `SampleResolutionTest` (SampleHandle.cpp lines 97-118): is the sample
nearest the cursor separated enough from its neighbors for the pencil tool?
No clip at the time ⇒ `true`; otherwise the average zoom of the pixel run
containing the cursor must exceed `3 ×` the clip's effective sample rate.
The `width` argument feeds the external `FindIntervals`, whose result is
modelled as `viewInfo.intervals`. -/
def SampleResolutionTest (viewInfo : ViewInfo) (wt : WaveTrack) (time : ℚ)
    (_width : ℤ) : Bool :=
  let xx : ℤ := max 0 (viewInfo.TimeToPosition time)
  match wt.GetClipAtTime time with
  | none => true
  | some clip =>
      let rate := clip.rate / clip.stretch
      let prev := findPrevInterval viewInfo.intervals xx
      let threshold := 3 * rate
      decide (prev.2 > threshold)

/-! ## Amplitude transform -/

/-- Modelled from the spec: `::ValueOfPixel` (external TrackArt) —
`amplitudeFromPixelY(pixelY, displayBounds, isLogarithmic, dBRange) ->
rawLevel`, the "exact inverse" of the display mapping, "producing the
displayed level (pre-envelope-division)" (spec 4.3).  Linear mode maps pixel
row 0 to `zoomMax` and row `height - 1` to `zoomMin`; the logarithmic branch
applies the external inverse map `dbInv`.  The source passes
`offset = false` at its one call site. -/
def ValueOfPixel (yy height : ℤ) (offset dB : Bool) (dbInv : ℚ → ℚ)
    (zoomMin zoomMax : ℚ) : ℚ :=
  let v : ℚ :=
    if height = 1 then (zoomMin + zoomMax) / 2
    else zoomMax - (yy : ℚ) / ((height : ℚ) - 1) * (zoomMax - zoomMin)
  let v := if offset && decide (v > 0) then v + 1/2 else v
  if dB then dbInv v else v

/-- Modelled from the spec: `::GetWaveYPos` (external TrackArt) —
`displayedPixelY(amplitude, ...) -> pixelY` (spec 4.3): the forward display
mapping from an (envelope-scaled) amplitude to a vertical pixel row within
the track rectangle, through the display bounds, applying the external
signed-log map `dbOf` when the scale is not linear. -/
def GetWaveYPos (value zoomMin zoomMax : ℚ) (height : ℤ) (dB : Bool)
    (dbOf : ℚ → ℚ) : ℤ :=
  let v := if dB then dbOf value else value
  ⌊(zoomMax - v) / (zoomMax - zoomMin) * (height : ℚ)⌋

/-! ## Gesture state and project -/

/-- The mutable per-gesture state of SampleHandle (the member variables the
reviewed file reads and writes).  `mClickedTrack` is the shared reference to
the edited track, an explicit `Option` per the spec's design note ("should
be modeled as an explicit optional reference", spec 9); it is `reset()` on
Release and Cancel. -/
structure SampleHandleState where
  mClickedTrack : Option WaveTrack
  mRect : Rect
  mClickedStartPixel : ℤ
  mLastDragPixel : ℤ
  mLastDragSampleValue : ℚ
  mAltKey : Bool

/-- One entry of the external history collaborator's log:
`pushCheckpoint(label, consolidate)` or `rollback()` (spec 6). -/
inductive HistoryOp
  | push (consolidate : Bool)
  | rollback
deriving Repr, DecidableEq

/-- Modelled from the spec: the externally owned collaborators one event
touches — the playback-state query `isAudioActive()`, the view mapping, the
track's sample buffer (clip-relative sample index → amplitude), and the
history collaborator's log (newest operation first). -/
structure Project where
  audioActive : Bool
  viewInfo : ViewInfo
  buffer : ℤ → ℚ
  history : List HistoryOp

/-- The subset of RefreshCode result flags the reviewed file returns. -/
structure Result where
  refreshCell : Bool
  cancelled : Bool
deriving Repr, DecidableEq

def RefreshNone : Result := ⟨false, false⟩
def RefreshCell : Result := ⟨true, false⟩
def Cancelled : Result := ⟨false, true⟩
/-- `RefreshCell | Cancelled` (Drag's cancel path). -/
def RefreshCellCancelled : Result := ⟨true, true⟩

/-- The outcome of one event: the returned result code, the updated gesture
state, the updated external state, and any user-facing messages shown
(`AudacityMessageBox`). -/
structure Outcome where
  result : Result
  handle : SampleHandleState
  project : Project
  messages : List String

/-- The message of `IsSampleEditingPossible`'s rejection dialog. -/
def drawToolMessage : String :=
  "To use Draw, zoom in further until you can see the individual samples."

/-! ## Buffer accessors (external, modelled from the spec) -/

/-- Modelled from the spec: `readOne(time, channel) -> amplitude` (spec 6),
the external `WaveTrack::GetFloatAtTime` — fails (`none`) when no clip
contains the time or the snapped index is out of the clip's range. -/
def GetFloatAtTime (wt : WaveTrack) (buffer : ℤ → ℚ) (t : ℚ) : Option ℚ :=
  match wt.GetClipAtTime t with
  | none => none
  | some c =>
      let idx := c.TimeToSamples (t - c.playStart)
      if 0 ≤ idx ∧ idx < c.numSamples then some (buffer idx) else none

/-- Modelled from the spec: `writeOne(time, channel, value, precisionHint)`
(spec 6), the external `WaveTrack::SetFloatAtTime` — writes the sample
nearest the time, if it lies inside a clip. -/
def SetFloatAtTime (wt : WaveTrack) (buffer : ℤ → ℚ) (t : ℚ) (value : ℚ) :
    ℤ → ℚ :=
  match wt.GetClipAtTime t with
  | none => buffer
  | some c =>
      let idx := c.TimeToSamples (t - c.playStart)
      fun n => if n = idx ∧ 0 ≤ n ∧ n < c.numSamples then value else buffer n

/-- Modelled from the spec: `writeRange(startTime, endTime, channel,
valueFn, precisionHint)` (spec 6), the external
`WaveTrack::SetFloatsWithinTimeRange` — every sample instant of the clip
lying in `[startT, endT]` receives the value of the continuous function at
its exact time. -/
def SetFloatsWithinTimeRange (wt : WaveTrack) (buffer : ℤ → ℚ)
    (startT endT : ℚ) (f : ℚ → ℚ) : ℤ → ℚ :=
  match wt.GetClipAtTime startT with
  | none => buffer
  | some c =>
      fun n =>
        let tn := c.SamplesToTime n + c.playStart
        if 0 ≤ n ∧ n < c.numSamples ∧ startT ≤ tn ∧ tn ≤ endT
        then f tn else buffer n

/-! ## Smoothing computation (Click, alt branch, lines 242-305) -/

/-- The triangular kernel weight `SMOOTHING_KERNEL_RADIUS + 1 - abs(ii)`
(line 273). -/
def kernelWeight (ii : ℤ) : ℚ :=
  ((SMOOTHING_KERNEL_RADIUS + 1 - |ii| : ℤ) : ℚ)

/-- The inner kernel loop (lines 256-275): the weighted sum over kernel
offsets `ii ∈ [-K, K]` of `weight(ii) × sampleRegion[ii + jj + K + B]`,
skipping indices outside the valid range `[first, second)` returned by the
neighborhood read. -/
def sumOfSamples (region : ℤ → ℚ) (first second : ℤ) (jj : ℤ) : ℚ :=
  ∑ ii ∈ Finset.Icc (-SMOOTHING_KERNEL_RADIUS) SMOOTHING_KERNEL_RADIUS,
    (if first ≤ ii + jj + SMOOTHING_KERNEL_RADIUS + SMOOTHING_BRUSH_RADIUS ∧
        ii + jj + SMOOTHING_KERNEL_RADIUS + SMOOTHING_BRUSH_RADIUS < second
     then kernelWeight ii *
          region (ii + jj + SMOOTHING_KERNEL_RADIUS + SMOOTHING_BRUSH_RADIUS)
     else 0)

/-- The smoothed candidate for brush offset `jj` (lines 276-278): the kernel
sum normalized by the full constant `(K+1)^2`, unchanged near edges. -/
def smoothedCandidate (region : ℤ → ℚ) (first second : ℤ) (jj : ℤ) : ℚ :=
  sumOfSamples region first second jj /
    (((SMOOTHING_KERNEL_RADIUS + 1) * (SMOOTHING_KERNEL_RADIUS + 1) : ℤ) : ℚ)

/-- The triangular mixing proportion `prob` (lines 291-294):
`MAX - |jj|/B × (MAX - MIN)`. -/
def mixProportion (jj : ℤ) : ℚ :=
  SMOOTHING_PROPORTION_MAX -
    ((|jj| : ℤ) : ℚ) / ((SMOOTHING_BRUSH_RADIUS : ℤ) : ℚ) *
      (SMOOTHING_PROPORTION_MAX - SMOOTHING_PROPORTION_MIN)

/-- The value written back for brush offset `jj ∈ [-B, B]` (lines 296-299):
candidate blended with the original sample
`sampleRegion[B + K + jj]` by `mixProportion jj`. -/
def newSampleRegion (region : ℤ → ℚ) (first second : ℤ) (jj : ℤ) : ℚ :=
  smoothedCandidate region first second jj * mixProportion jj +
    region (SMOOTHING_BRUSH_RADIUS + SMOOTHING_KERNEL_RADIUS + jj) *
      (1 - mixProportion jj)

/-- The whole smoothing pass of Click's alt branch: the neighborhood read
`GetFloatsCenteredAroundTime` (modelled from the spec's
`readNeighborhood -> (values, validRange)`, spec 6) around the clicked time,
the two loops above, and the write-back
`SetFloatsCenteredAroundTime` (spec `writeNeighborhood`), which persists
only the positions that exist in the clip. -/
def smoothingPass (wt : WaveTrack) (buffer : ℤ → ℚ) (t0 : ℚ) : ℤ → ℚ :=
  match wt.GetClipAtTime t0 with
  | none => buffer
  | some c =>
      let center := c.TimeToSamples (t0 - c.playStart)
      let base := center - (SMOOTHING_KERNEL_RADIUS + SMOOTHING_BRUSH_RADIUS)
      let region : ℤ → ℚ := fun idx => buffer (base + idx)
      let first := max 0 (-base)
      let second :=
        min (2 * (SMOOTHING_KERNEL_RADIUS + SMOOTHING_BRUSH_RADIUS) + 1)
          (c.numSamples - base)
      fun n =>
        if center - SMOOTHING_BRUSH_RADIUS ≤ n ∧
           n ≤ center + SMOOTHING_BRUSH_RADIUS ∧ 0 ≤ n ∧ n < c.numSamples
        then newSampleRegion region first second (n - center)
        else buffer n

/-! ## Level computation and interpolation -/

/-- `SampleHandle::FindSampleEditingLevel` (lines 428-461): invert the
display mapping at the mouse's vertical position, then take the envelope
into account — when an envelope is present, divide by its value at `t0`
when that value is positive (else 0) and clamp to `[-1, 1]`; when no
envelope is present the displayed level is returned as-is. -/
def FindSampleEditingLevel (h : SampleHandleState) (wt : WaveTrack)
    (event : MouseEvent) (viewInfo : ViewInfo) (t0 : ℚ) : ℚ :=
  let zoomMin := wt.zoomMin
  let zoomMax := wt.zoomMax
  let yy := event.y - h.mRect.y
  let height := h.mRect.height
  let dB := !wt.isLinear
  let newLevel := ValueOfPixel yy height false dB wt.dbInv zoomMin zoomMax
  let time := viewInfo.PositionToTime event.x h.mRect.x
  match wt.GetEnvelopeAtTime time with
  | none => newLevel
  | some env =>
      let envValue := env t0
      let newLevel := if envValue > 0 then newLevel / envValue else 0
      max (-1) (min 1 newLevel)

/-- The drag-drawing interpolator lambda (SampleHandle.cpp lines 374-382):
`v1` on a zero-width segment, otherwise the line through `(t0, v0)` and
`(t1, v1)` evaluated at `t` and clamped (`std::clamp`) to
`[min(v0, v1), max(v0, v1)]`. -/
def interpolator (t0 t1 v0 v1 : ℚ) (t : ℚ) : ℚ :=
  if t0 = t1 then v1
  else
    let gradient := (v1 - v0) / (t1 - t0)
    let value := gradient * (t - t0) + v0
    max (min v0 v1) (min value (max v0 v1))

/-! ## Null-reference wrappers

After `mClickedTrack.reset()` the source's comment says the null reference
"will catch improper drag events"; dereferencing it is not translatable, so
per the spec's design note ("Weak/shared ownership ... should be modeled as
an explicit optional reference", spec 9) and the invariant of spec section 3,
a cleared reference behaves as absent data: no clip is found and no write
reaches the buffer. -/

/-- `adjustTime` through the optional track reference. -/
def adjustTimeOpt : Option WaveTrack → ℚ → ℚ
  | none, t => t
  | some wt, t => adjustTime wt t

/-- `SampleResolutionTest` through the optional track reference (a cleared
reference has no clip at any time, hence `true`). -/
def SampleResolutionTestOpt (vi : ViewInfo) :
    Option WaveTrack → ℚ → ℤ → Bool
  | none, _, _ => true
  | some wt, t, w => SampleResolutionTest vi wt t w

/-- `IsSampleEditingPossible` (SampleHandle.cpp lines 181-196): the
resolution test on the adjusted click time; a `false` result pops up the
Draw Tool message. -/
def IsSampleEditingPossible (event : MouseEvent) (rect : Rect)
    (viewInfo : ViewInfo) (wt : Option WaveTrack) (width : ℤ) : Bool :=
  let time := adjustTimeOpt wt (viewInfo.PositionToTime event.x rect.x)
  SampleResolutionTestOpt viewInfo wt time width

/-- The messages `IsSampleEditingPossible` shows: the Draw Tool dialog
exactly when the test fails. -/
def editingPossibleMessages (b : Bool) : List String :=
  if b then [] else [drawToolMessage]

/-! ## The four events -/

/-- `SampleHandle::Cancel` (lines 421-426): clear the track reference, ask
the history collaborator to roll back, request a cell redraw. -/
def Cancel (h : SampleHandleState) (p : Project) : Outcome :=
  ⟨RefreshCell, { h with mClickedTrack := none },
    { p with history := HistoryOp.rollback :: p.history }, []⟩

/-- `SampleHandle::Click` (lines 199-334).  Audio active ⇒ `Cancelled`, no
other effect.  Resolution failure ⇒ message and `Cancelled`.  Otherwise
snapshot the rectangle and start pixel, then either run the smoothing pass
(alt held) or write one sample at the clicked time and record it as the
drag anchor; both branches set `mLastDragPixel` and refresh the cell. -/
def Click (h : SampleHandleState) (evt : TrackPanelMouseEvent) (p : Project) :
    Outcome :=
  if p.audioActive then ⟨Cancelled, h, p, []⟩
  else
    let event := evt.event
    let rect := evt.rect
    let viewInfo := p.viewInfo
    let t0 := viewInfo.PositionToTime event.x rect.x
    match h.mClickedTrack with
    | none => ⟨Cancelled, h, p, []⟩
    | some wt =>
        let possible := IsSampleEditingPossible event rect viewInfo (some wt)
          rect.width
        if !possible then ⟨Cancelled, h, p, editingPossibleMessages possible⟩
        else
          let h1 := { h with mRect := rect,
                             mClickedStartPixel := viewInfo.TimeToPosition t0 }
          if event.altDown then
            let h2 := { h1 with mAltKey := true,
                                mLastDragPixel := h1.mClickedStartPixel }
            ⟨RefreshCell, h2,
              { p with buffer := smoothingPass wt p.buffer t0 }, []⟩
          else
            let h2 := { h1 with mAltKey := false }
            let newLevel := FindSampleEditingLevel h2 wt event viewInfo t0
            let h3 := { h2 with mLastDragSampleValue := newLevel,
                                mLastDragPixel := h2.mClickedStartPixel }
            ⟨RefreshCell, h3,
              { p with buffer := SetFloatAtTime wt p.buffer t0 newLevel }, []⟩

/-- `SampleHandle::Drag` (lines 336-391).  Audio active or resolution
failure ⇒ `Cancel` and `RefreshCell | Cancelled`.  Alt (smoothing) mode ⇒
no-op.  Otherwise draw: interpolate from the last drag anchor to the new
level over `[min(t0, t1), max(t0, t1)]`, then update `mLastDragPixel`
(pinned to `mClickedStartPixel` when control is held) and
`mLastDragSampleValue`. -/
def Drag (h : SampleHandleState) (evt : TrackPanelMouseEvent) (p : Project) :
    Outcome :=
  let event := evt.event
  let viewInfo := p.viewInfo
  let samplesVisible := IsSampleEditingPossible event h.mRect viewInfo
    h.mClickedTrack h.mRect.width
  let msgs := editingPossibleMessages samplesVisible
  if p.audioActive || !samplesVisible then
    let c := Cancel h p
    ⟨RefreshCellCancelled, c.handle, c.project, msgs⟩
  else if h.mAltKey then
    ⟨RefreshNone, h, p, msgs⟩
  else
    let t0 := viewInfo.PositionToTime1 h.mLastDragPixel
    let t1 := viewInfo.PositionToTime event.x h.mRect.x
    let x1 := if event.controlDown then h.mClickedStartPixel
              else viewInfo.TimeToPosition t1
    match h.mClickedTrack with
    | none =>
        -- Cleared reference: the write cannot reach any buffer (see the
        -- null-reference modelling note above); the C++ comment relies on
        -- exactly this to "catch improper drag events".
        ⟨RefreshCell, h, p, msgs⟩
    | some wt =>
        let newLevel := FindSampleEditingLevel h wt event viewInfo t0
        let startT := min t0 t1
        let endT := max t0 t1
        let buffer' := SetFloatsWithinTimeRange wt p.buffer startT endT
          (interpolator t0 t1 h.mLastDragSampleValue newLevel)
        let h' := { h with mLastDragPixel := x1,
                           mLastDragSampleValue := newLevel }
        ⟨RefreshCell, h', { p with buffer := buffer' }, msgs⟩

/-- `SampleHandle::Release` (lines 400-419): audio active ⇒ `Cancel`;
otherwise clear the track reference, push one consolidated checkpoint, and
request no redraw. -/
def Release (h : SampleHandleState) (p : Project) : Outcome :=
  if p.audioActive then Cancel h p
  else
    ⟨RefreshNone, { h with mClickedTrack := none },
      { p with history := HistoryOp.push true :: p.history }, []⟩

/-! ## Gesture runs -/

/-- A sequence of Drag events threaded through the gesture state. -/
def runDrags (h : SampleHandleState) (p : Project) :
    List TrackPanelMouseEvent → SampleHandleState × Project
  | [] => (h, p)
  | e :: es =>
      let o := Drag h e p
      runDrags o.handle o.project es

/-- A full Click → Drag×N → Release gesture; the value is the Release
outcome. -/
def runGesture (h : SampleHandleState) (p : Project)
    (clickEvt : TrackPanelMouseEvent) (dragEvts : List TrackPanelMouseEvent) :
    Outcome :=
  let c := Click h clickEvt p
  let hp := runDrags c.handle c.project dragEvts
  Release hp.1 hp.2

/-! ## Hit testing -/

/-- The freshly constructed handle of `HitAnywhere` / the SampleHandle
constructor (lines 39-42, 74-81): only `mClickedTrack` is initialized. -/
def mkSampleHandle (wt : WaveTrack) : SampleHandleState :=
  ⟨some wt, ⟨0, 0, 0, 0⟩, 0, 0, 0, false⟩

/-- The envelope scale `HitTest` renders with: the envelope's value at the
snapped time `tt` when present, else `1.0` (lines 149-153). -/
def hitEnvValue (wt : WaveTrack) (time tt : ℚ) : ℚ :=
  match wt.GetEnvelopeAtTime time with
  | none => 1
  | some env => env tt

/-- The displayed vertical pixel position of a sample in `HitTest`
(lines 155-160): the display mapping of `oneSample * envValue`, offset by
the rectangle's top. -/
def hitYValue (wt : WaveTrack) (rect : Rect) (oneSample envValue : ℚ) : ℤ :=
  GetWaveYPos (oneSample * envValue) wt.zoomMin wt.zoomMax rect.height
    (!wt.isLinear) wt.dbOf + rect.y

/-- `SampleHandle::HitTest` (lines 121-171): no handle when the resolution
test fails, when the single-sample read fails, or when the mouse is
`≥ 10` pixels from the sample's displayed position; otherwise the new
handle.  No branch shows a user message. -/
def HitTest (state : MouseEvent) (rect : Rect) (p : Project)
    (wt : WaveTrack) : Option SampleHandleState × List String :=
  let viewInfo := p.viewInfo
  let time := viewInfo.PositionToTime state.x rect.x
  let tt := adjustTime wt time
  if !SampleResolutionTest viewInfo wt tt rect.width then (none, [])
  else
    match GetFloatAtTime wt p.buffer tt with
    | none => (none, [])
    | some oneSample =>
        let yValue := hitYValue wt rect oneSample (hitEnvValue wt time tt)
        let yMouse := state.y
        if |yValue - yMouse| ≥ 10 then (none, [])
        else (some (mkSampleHandle wt), [])

/-! ## Spec-side definitions for refinement comparison -/

/-- The claim's `applyEnvelopeCorrection` (spec 4.3), written from the
spec's words for comparison with the source's `FindSampleEditingLevel`:
divide the displayed level by a positive envelope scale (0 otherwise) and
"always clamp final result to [-1.0, 1.0]"; an absent envelope is "treated
as constant 1.0" (spec 3). -/
def applyEnvelopeCorrectionSpec (displayedLevel scale : ℚ) : ℚ :=
  let lvl := if scale > 0 then displayedLevel / scale else 0
  max (-1) (min 1 lvl)

/-- The claim's Drag new-level computation, written from the claim's words:
"the new level is computed via the amplitude transform at t1" — i.e.
`FindSampleEditingLevel` with the envelope evaluated at the current cursor
time `t1` rather than at `t0`. -/
def dragLevelAtT1Spec (h : SampleHandleState) (wt : WaveTrack)
    (event : MouseEvent) (viewInfo : ViewInfo) : ℚ :=
  FindSampleEditingLevel h wt event viewInfo
    (viewInfo.PositionToTime event.x h.mRect.x)

/-! ## Concrete fixtures for witnesses and counterexamples -/

/-- A clip covering times `[-100, 100]` at rate 1, no stretch. -/
def testClip : WaveClip := ⟨-100, 100, 1, 1, 200⟩

/-- A plain linear-scale track with display bounds `[-1, 1]` and no
envelope. -/
def testTrack : WaveTrack :=
  ⟨[testClip], 1, none, -1, 1, true, 60, id, id⟩

/-- A view at origin 0, zoom 1 px/s, one pixel run of average zoom 100. -/
def testView : ViewInfo := ⟨0, 1, [(0, 100)]⟩

def testRect : Rect := ⟨0, 0, 100, 3⟩

def testMouse : MouseEvent := ⟨4, 0, false, false⟩

def testEvt : TrackPanelMouseEvent := ⟨testMouse, testRect⟩

def testHandle : SampleHandleState :=
  ⟨some testTrack, testRect, 0, 0, 9/10, false⟩

/-- `testHandle` after its track reference has been cleared. -/
def testHandleCleared : SampleHandleState :=
  ⟨none, testRect, 0, 0, 9/10, false⟩

def testProj : Project := ⟨false, testView, fun _ => 0, []⟩

def testProjActive : Project := ⟨true, testView, fun _ => 0, []⟩

/-- A clip of sample rate 10 (so the resolution threshold is `3 × 10`). -/
def gateClip : WaveClip := ⟨-100, 100, 10, 1, 2000⟩

def gateTrack : WaveTrack :=
  ⟨[gateClip], 10, none, -1, 1, true, 60, id, id⟩

/-- Average zoom `2.9 ×` the sample rate 10. -/
def viewGate29 : ViewInfo := ⟨0, 1, [(0, 29)]⟩

/-- Average zoom `3.1 ×` the sample rate 10. -/
def viewGate31 : ViewInfo := ⟨0, 1, [(0, 31)]⟩

/-- A track with display bounds `[-2, 2]` and no envelope: the displayed
level at the top pixel row is 2. -/
def cx5Track : WaveTrack :=
  ⟨[testClip], 1, none, -2, 2, true, 60, id, id⟩

def cx5Handle : SampleHandleState :=
  ⟨some cx5Track, testRect, 0, 0, 0, false⟩

def cx5Event : MouseEvent := ⟨0, 0, false, false⟩

/-- A track whose envelope is 1 before time 2 and 2 from time 2 on. -/
def cx7Track : WaveTrack :=
  ⟨[testClip], 1, some (fun t => if t < 2 then 1 else 2), -1, 1, true, 60,
    id, id⟩

/-- Mid-gesture state: the previous drag pixel is 0 (time 0), the current
cursor of `testMouse` is pixel 4 (time 4); the envelope differs between the
two times. -/
def cx7Handle : SampleHandleState :=
  ⟨some cx7Track, testRect, 0, 0, 9/10, false⟩

def cx7Evt : TrackPanelMouseEvent := ⟨testMouse, testRect⟩

def cx7Proj : Project := ⟨false, testView, fun _ => 0, []⟩

/-- A track carrying a constant envelope of value 2. -/
def cx5EnvTrack : WaveTrack :=
  ⟨[testClip], 1, some (fun _ => 2), -1, 1, true, 60, id, id⟩

def cx5EnvHandle : SampleHandleState :=
  ⟨some cx5EnvTrack, testRect, 0, 0, 0, false⟩

/-! ## Theorems -/

/-- C1: For every gesture event processed while `isAudioActive()` is true,
no buffer mutation occurs — a Click while audio is active is rejected
(result `Cancelled`) with no change to the external state at all, and a
Drag or Release while audio is active cancels the gesture, clearing the
track reference and appending a rollback to the history, with no sample
written by that event. -/
theorem audioActive_rejects_all_events
    (h : SampleHandleState) (evt : TrackPanelMouseEvent) (p : Project)
    (hact : p.audioActive = true) :
    ((Click h evt p).result = Cancelled ∧ (Click h evt p).project = p) ∧
    ((Drag h evt p).handle.mClickedTrack = none ∧
     (Drag h evt p).project.history = HistoryOp.rollback :: p.history ∧
     (Drag h evt p).project.buffer = p.buffer) ∧
    ((Release h p).handle.mClickedTrack = none ∧
     (Release h p).project.history = HistoryOp.rollback :: p.history ∧
     (Release h p).project.buffer = p.buffer) := by
  simp [Click, Drag, Release, Cancel, hact]

/-- Witness for C1 at a concrete active-audio project. -/
theorem audioActive_rejects_all_events_witness :
    testProjActive.audioActive = true ∧
    (Click testHandle testEvt testProjActive).result = Cancelled ∧
    (Drag testHandle testEvt testProjActive).handle.mClickedTrack = none ∧
    (Release testHandle testProjActive).project.history =
      HistoryOp.rollback :: testProjActive.history :=
  ⟨rfl,
   (audioActive_rejects_all_events testHandle testEvt testProjActive rfl).1.1,
   (audioActive_rejects_all_events testHandle testEvt testProjActive
      rfl).2.1.1,
   (audioActive_rejects_all_events testHandle testEvt testProjActive
      rfl).2.2.2.1⟩

/-- C3: After `clickedTrack` has been cleared, every further event is a
no-op or rejected and performs no buffer mutation — in particular a Drag
arriving after the clear writes no samples. -/
theorem cleared_track_blocks_mutation
    (h : SampleHandleState) (evt : TrackPanelMouseEvent) (p : Project)
    (hcl : h.mClickedTrack = none) :
    (Drag h evt p).project.buffer = p.buffer ∧
    (Release h p).project.buffer = p.buffer ∧
    (Cancel h p).project.buffer = p.buffer ∧
    (Click h evt p).project.buffer = p.buffer := by
  refine ⟨?_, ?_, rfl, ?_⟩
  · unfold Drag
    rw [hcl]
    by_cases hc : (p.audioActive ||
        !IsSampleEditingPossible evt.event h.mRect p.viewInfo none
          h.mRect.width) = true
    · simp [hc, Cancel]
    · simp only [Bool.not_eq_true] at hc
      simp [hc]
      split <;> rfl
  · unfold Release
    split <;> rfl
  · unfold Click
    split
    · rfl
    · rw [hcl]

/-- Witness for C3 at a concrete cleared handle. -/
theorem cleared_track_blocks_mutation_witness :
    testHandleCleared.mClickedTrack = none ∧
    (Drag testHandleCleared testEvt testProj).project.buffer =
      testProj.buffer ∧
    (Release testHandleCleared testProj).project.buffer = testProj.buffer :=
  ⟨rfl,
   (cleared_track_blocks_mutation testHandleCleared testEvt testProj rfl).1,
   (cleared_track_blocks_mutation testHandleCleared testEvt testProj
      rfl).2.1⟩

/-- Helper: a Drag whose audio and resolution checks pass leaves the track
reference, rectangle, history, audio flag and view mapping unchanged. -/
theorem drag_success_fields (h : SampleHandleState)
    (e : TrackPanelMouseEvent) (p : Project) (hq : p.audioActive = false)
    (hvis : IsSampleEditingPossible e.event h.mRect p.viewInfo
      h.mClickedTrack h.mRect.width = true) :
    (Drag h e p).handle.mClickedTrack = h.mClickedTrack ∧
    (Drag h e p).handle.mRect = h.mRect ∧
    (Drag h e p).project.history = p.history ∧
    (Drag h e p).project.audioActive = p.audioActive ∧
    (Drag h e p).project.viewInfo = p.viewInfo := by
  unfold Drag
  simp only [hq, hvis, Bool.not_true, Bool.or_false, Bool.false_or,
    if_false, Bool.false_eq_true]
  split
  · refine ⟨rfl, rfl, rfl, ?_, rfl⟩
    simp [hq]
  · split <;> refine ⟨rfl, rfl, rfl, ?_, rfl⟩ <;> simp [hq]

/-- Helper: a sequence of Drags that all pass their checks leaves the track
reference, rectangle, history, audio flag and view mapping unchanged. -/
theorem runDrags_preserves :
    ∀ (evts : List TrackPanelMouseEvent) (h : SampleHandleState)
      (p : Project), p.audioActive = false →
      (∀ e ∈ evts, IsSampleEditingPossible e.event h.mRect p.viewInfo
        h.mClickedTrack h.mRect.width = true) →
      (runDrags h p evts).1.mClickedTrack = h.mClickedTrack ∧
      (runDrags h p evts).1.mRect = h.mRect ∧
      (runDrags h p evts).2.history = p.history ∧
      (runDrags h p evts).2.audioActive = p.audioActive ∧
      (runDrags h p evts).2.viewInfo = p.viewInfo
  | [], _, _, _, _ => ⟨rfl, rfl, rfl, rfl, rfl⟩
  | e :: es, h, p, hq, hvis => by
      have hv := hvis e (List.mem_cons_self e es)
      obtain ⟨c1, c2, c3, c4, c5⟩ := drag_success_fields h e p hq hv
      have ih := runDrags_preserves es (Drag h e p).handle
        (Drag h e p).project (by rw [c4, hq])
        (by intro e' he'
            rw [c2, c5, c1]
            exact hvis e' (List.mem_cons_of_mem _ he'))
      simp only [runDrags]
      exact ⟨by rw [ih.1, c1], by rw [ih.2.1, c2], by rw [ih.2.2.1, c3],
             by rw [ih.2.2.2.1, c4], by rw [ih.2.2.2.2, c5]⟩

/-- Helper: a Click whose audio and resolution checks pass keeps the track
reference, snapshots the rectangle, and leaves history, audio flag and view
mapping unchanged. -/
theorem click_success_fields (h : SampleHandleState)
    (evt : TrackPanelMouseEvent) (p : Project) (wt : WaveTrack)
    (hq : p.audioActive = false) (htr : h.mClickedTrack = some wt)
    (hres : IsSampleEditingPossible evt.event evt.rect p.viewInfo (some wt)
      evt.rect.width = true) :
    (Click h evt p).handle.mClickedTrack = some wt ∧
    (Click h evt p).handle.mRect = evt.rect ∧
    (Click h evt p).project.history = p.history ∧
    (Click h evt p).project.audioActive = p.audioActive ∧
    (Click h evt p).project.viewInfo = p.viewInfo := by
  unfold Click
  simp only [hq, htr, hres, Bool.not_true, if_false, Bool.false_eq_true]
  split <;> refine ⟨rfl, rfl, rfl, ?_, rfl⟩ <;> simp [hq]

/-- C2: On Release with audio inactive, the track reference is cleared,
exactly one consolidated checkpoint is pushed to the history collaborator,
and no further redraw is requested (`RefreshNone`); consequently a
Click → Drag×N → Release gesture whose checks all pass leaves exactly one
(consolidated) entry pushed on the history and no rollback. -/
theorem release_pushes_single_consolidated_checkpoint
    (h : SampleHandleState) (p : Project) (wt : WaveTrack)
    (clickEvt : TrackPanelMouseEvent)
    (dragEvts : List TrackPanelMouseEvent)
    (hq : p.audioActive = false) (htr : h.mClickedTrack = some wt)
    (hclick : IsSampleEditingPossible clickEvt.event clickEvt.rect
      p.viewInfo (some wt) clickEvt.rect.width = true)
    (hdrags : ∀ e ∈ dragEvts, IsSampleEditingPossible e.event clickEvt.rect
      p.viewInfo (some wt) clickEvt.rect.width = true) :
    ((Release h p).handle.mClickedTrack = none ∧
     (Release h p).project.history = HistoryOp.push true :: p.history ∧
     (Release h p).result = RefreshNone) ∧
    (runGesture h p clickEvt dragEvts).project.history =
      HistoryOp.push true :: p.history := by
  constructor
  · unfold Release
    rw [hq]
    exact ⟨rfl, rfl, rfl⟩
  · obtain ⟨k1, k2, k3, k4, k5⟩ :=
      click_success_fields h clickEvt p wt hq htr hclick
    have hds := runDrags_preserves dragEvts (Click h clickEvt p).handle
      (Click h clickEvt p).project (by rw [k4, hq])
      (by intro e he
          rw [k2, k5, k1]
          exact hdrags e he)
    have hact : (runDrags (Click h clickEvt p).handle
        (Click h clickEvt p).project dragEvts).2.audioActive = false := by
      rw [hds.2.2.2.1, k4, hq]
    have hg : runGesture h p clickEvt dragEvts =
        Release (runDrags (Click h clickEvt p).handle
            (Click h clickEvt p).project dragEvts).1
          (runDrags (Click h clickEvt p).handle
            (Click h clickEvt p).project dragEvts).2 := rfl
    rw [hg]
    unfold Release
    rw [hact]
    simp only [Bool.false_eq_true, if_false]
    show HistoryOp.push true :: (runDrags (Click h clickEvt p).handle
        (Click h clickEvt p).project dragEvts).2.history =
      HistoryOp.push true :: p.history
    rw [hds.2.2.1, k3]

/-- Helper: concrete evaluation — the resolution check passes for the test
fixtures. -/
theorem testEditingPossible :
    IsSampleEditingPossible testEvt.event testEvt.rect testProj.viewInfo
      (some testTrack) testEvt.rect.width = true := by
  norm_num [IsSampleEditingPossible, adjustTimeOpt, adjustTime,
    SampleResolutionTestOpt, SampleResolutionTest, WaveTrack.GetClipAtTime,
    WaveClip.TimeToSamples, WaveClip.SamplesToTime, ViewInfo.PositionToTime,
    ViewInfo.TimeToPosition, findPrevInterval,
    findPrevInterval.findPrevIntervalGo, testEvt, testProj, testTrack,
    testClip, testView, testRect, testMouse, List.find?]

/-- Witness for C2: a concrete Click → Drag → Release gesture. -/
theorem release_pushes_single_consolidated_checkpoint_witness :
    testProj.audioActive = false ∧
    testHandle.mClickedTrack = some testTrack ∧
    (Release testHandle testProj).project.history =
      HistoryOp.push true :: testProj.history ∧
    (runGesture testHandle testProj testEvt [testEvt]).project.history =
      HistoryOp.push true :: testProj.history :=
  ⟨rfl, rfl,
   (release_pushes_single_consolidated_checkpoint testHandle testProj
      testTrack testEvt [testEvt] rfl rfl testEditingPossible
      (by intro e he
          rw [List.mem_singleton] at he
          subst he
          exact testEditingPossible)).1.2.1,
   (release_pushes_single_consolidated_checkpoint testHandle testProj
      testTrack testEvt [testEvt] rfl rfl testEditingPossible
      (by intro e he
          rw [List.mem_singleton] at he
          subst he
          exact testEditingPossible)).2⟩

/-- C4: `SampleResolutionTest` defaults to `true` when no clip exists at
the candidate time; with a clip, it is `true` exactly when the average zoom
of the pixel run containing the candidate position strictly exceeds
`3 ×` (clip rate / stretch ratio); in particular an average zoom of
`2.9 ×` the rate yields `false` and `3.1 ×` the rate yields `true`. -/
theorem sampleResolutionTest_zoom_gate
    (viewInfo : ViewInfo) (wt : WaveTrack) (time : ℚ) (width : ℤ) :
    ((wt.GetClipAtTime time = none →
       SampleResolutionTest viewInfo wt time width = true) ∧
     (∀ clip, wt.GetClipAtTime time = some clip →
       (SampleResolutionTest viewInfo wt time width = true ↔
         (findPrevInterval viewInfo.intervals
             (max 0 (viewInfo.TimeToPosition time))).2 >
           3 * (clip.rate / clip.stretch)))) ∧
    SampleResolutionTest viewGate29 gateTrack 0 100 = false ∧
    SampleResolutionTest viewGate31 gateTrack 0 100 = true := by
  refine ⟨⟨?_, ?_⟩, ?_, ?_⟩
  · intro hnone
    unfold SampleResolutionTest
    rw [hnone]
  · intro clip hclip
    unfold SampleResolutionTest
    rw [hclip]
    simp
  · norm_num [SampleResolutionTest, WaveTrack.GetClipAtTime,
      ViewInfo.TimeToPosition, findPrevInterval,
      findPrevInterval.findPrevIntervalGo, gateTrack, gateClip, viewGate29,
      List.find?]
  · norm_num [SampleResolutionTest, WaveTrack.GetClipAtTime,
      ViewInfo.TimeToPosition, findPrevInterval,
      findPrevInterval.findPrevIntervalGo, gateTrack, gateClip, viewGate31,
      List.find?]

/-- Witness for C4 at the concrete `3.1 ×` fixture. -/
theorem sampleResolutionTest_zoom_gate_witness :
    gateTrack.GetClipAtTime 0 = some gateClip ∧
    (SampleResolutionTest viewGate31 gateTrack 0 100 = true ↔
      (findPrevInterval viewGate31.intervals
          (max 0 (viewGate31.TimeToPosition 0))).2 >
        3 * (gateClip.rate / gateClip.stretch)) :=
  ⟨by norm_num [WaveTrack.GetClipAtTime, gateTrack, gateClip, List.find?],
   (sampleResolutionTest_zoom_gate viewGate31 gateTrack 0 100).1.2 gateClip
     (by norm_num [WaveTrack.GetClipAtTime, gateTrack, gateClip,
       List.find?])⟩

/-- C5 counterexample: with no envelope present, `FindSampleEditingLevel`
returns the displayed level unclamped — display bounds `[-2, 2]` and a
click at the top pixel row give level 2, outside `[-1, 1]`, whereas the
claim's `applyEnvelopeCorrection` with an absent envelope treated as the
constant `1.0` would give 1. -/
theorem findSampleEditingLevel_no_envelope_unclamped :
    FindSampleEditingLevel cx5Handle cx5Track cx5Event testView 0 = 2 ∧
    applyEnvelopeCorrectionSpec
      (ValueOfPixel 0 3 false false cx5Track.dbInv (-2) 2) 1 = 1 ∧
    ¬((-1 : ℚ) ≤
        FindSampleEditingLevel cx5Handle cx5Track cx5Event testView 0 ∧
      FindSampleEditingLevel cx5Handle cx5Track cx5Event testView 0 ≤ 1) := by
  have h1 : FindSampleEditingLevel cx5Handle cx5Track cx5Event testView 0 =
      2 := by
    norm_num [FindSampleEditingLevel, ValueOfPixel, ViewInfo.PositionToTime,
      WaveTrack.GetEnvelopeAtTime, cx5Handle, cx5Track, cx5Event, testView,
      testRect, testClip]
  refine ⟨h1, ?_, ?_⟩
  · norm_num [applyEnvelopeCorrectionSpec, ValueOfPixel, cx5Track]
  · rw [h1]
    norm_num

/-- C5 (amended): the envelope correction — divide by a positive scale,
zero for a non-positive scale, clamp to `[-1, 1]` — applies exactly when an
envelope is present (with the scale taken at `t0`); when no envelope is
present the displayed level is returned unchanged, without clamping. -/
theorem findSampleEditingLevel_envelope_correction
    (h : SampleHandleState) (wt : WaveTrack) (event : MouseEvent)
    (viewInfo : ViewInfo) (t0 : ℚ) :
    (wt.GetEnvelopeAtTime (viewInfo.PositionToTime event.x h.mRect.x) =
        none →
      FindSampleEditingLevel h wt event viewInfo t0 =
        ValueOfPixel (event.y - h.mRect.y) h.mRect.height false
          (!wt.isLinear) wt.dbInv wt.zoomMin wt.zoomMax) ∧
    (∀ env,
      wt.GetEnvelopeAtTime (viewInfo.PositionToTime event.x h.mRect.x) =
        some env →
      FindSampleEditingLevel h wt event viewInfo t0 =
        applyEnvelopeCorrectionSpec
          (ValueOfPixel (event.y - h.mRect.y) h.mRect.height false
            (!wt.isLinear) wt.dbInv wt.zoomMin wt.zoomMax) (env t0)) := by
  constructor
  · intro hnone
    simp only [FindSampleEditingLevel]
    rw [hnone]
  · intro env henv
    simp only [FindSampleEditingLevel, applyEnvelopeCorrectionSpec]
    rw [henv]

/-- Witness for C5's amended theorem: a concrete present envelope. -/
theorem findSampleEditingLevel_envelope_correction_witness :
    cx5EnvTrack.GetEnvelopeAtTime
        (testView.PositionToTime cx5Event.x cx5EnvHandle.mRect.x) =
      some (fun _ => 2) ∧
    FindSampleEditingLevel cx5EnvHandle cx5EnvTrack cx5Event testView 0 =
      applyEnvelopeCorrectionSpec
        (ValueOfPixel (cx5Event.y - cx5EnvHandle.mRect.y)
          cx5EnvHandle.mRect.height false (!cx5EnvTrack.isLinear)
          cx5EnvTrack.dbInv cx5EnvTrack.zoomMin cx5EnvTrack.zoomMax)
        ((fun _ => 2) 0) :=
  ⟨rfl,
   (findSampleEditingLevel_envelope_correction cx5EnvHandle cx5EnvTrack
      cx5Event testView 0).2 (fun _ => 2) rfl⟩

/-- C6: the drag interpolator returns `v1` everywhere on a zero-width
segment; otherwise it is the linear evaluation
`v0 + (v1 - v0)/(t1 - t0) · (t - t0)` clamped to
`[min(v0, v1), max(v0, v1)]`; and for every query time — inside or outside
`[t0, t1]` — the result never lies outside the two endpoint values. -/
theorem interpolator_endpoint_clamp (t0 t1 v0 v1 t : ℚ) :
    (t0 = t1 → interpolator t0 t1 v0 v1 t = v1) ∧
    (t0 ≠ t1 → interpolator t0 t1 v0 v1 t =
      max (min v0 v1)
        (min (v0 + (v1 - v0) / (t1 - t0) * (t - t0)) (max v0 v1))) ∧
    min v0 v1 ≤ interpolator t0 t1 v0 v1 t ∧
    interpolator t0 t1 v0 v1 t ≤ max v0 v1 := by
  have hvaleq : t0 = t1 → interpolator t0 t1 v0 v1 t = v1 := by
    intro he
    simp [interpolator, he]
  have hval : ¬t0 = t1 → interpolator t0 t1 v0 v1 t =
      max (min v0 v1)
        (min (v0 + (v1 - v0) / (t1 - t0) * (t - t0)) (max v0 v1)) := by
    intro hne
    simp only [interpolator, if_neg hne]
    rw [show (v1 - v0) / (t1 - t0) * (t - t0) + v0 =
        v0 + (v1 - v0) / (t1 - t0) * (t - t0) from by ring]
  refine ⟨hvaleq, hval, ?_⟩
  by_cases he : t0 = t1
  · rw [hvaleq he]
    exact ⟨min_le_right _ _, le_max_right _ _⟩
  · rw [hval he]
    exact ⟨le_max_left _ _, max_le min_le_max (min_le_right _ _)⟩

/-- Witness for C6 at the spec's scenario anchors `(0, 0.2)` and
`(1, -0.3)`, queried at `t = -0.5` (outside the segment). -/
theorem interpolator_endpoint_clamp_witness :
    ((0 : ℚ) ≠ 1) ∧
    interpolator 0 1 (1/5) (-3/10) (-1/2) =
      max (min (1/5 : ℚ) (-3/10))
        (min ((1/5 : ℚ) + ((-3/10) - 1/5) / (1 - 0) * ((-1/2) - 0))
          (max (1/5 : ℚ) (-3/10))) ∧
    min (1/5 : ℚ) (-3/10) ≤ interpolator 0 1 (1/5) (-3/10) (-1/2) ∧
    interpolator 0 1 (1/5) (-3/10) (-1/2) ≤ max (1/5 : ℚ) (-3/10) :=
  ⟨by norm_num,
   (interpolator_endpoint_clamp 0 1 (1/5) (-3/10) (-1/2)).2.1 (by norm_num),
   (interpolator_endpoint_clamp 0 1 (1/5) (-3/10) (-1/2)).2.2.1,
   (interpolator_endpoint_clamp 0 1 (1/5) (-3/10) (-1/2)).2.2.2⟩

/-- Helper: concrete evaluation — the resolution check passes for the C7
fixtures. -/
theorem cx7EditingPossible :
    IsSampleEditingPossible cx7Evt.event cx7Handle.mRect cx7Proj.viewInfo
      (some cx7Track) cx7Handle.mRect.width = true := by
  norm_num [IsSampleEditingPossible, adjustTimeOpt, adjustTime,
    SampleResolutionTestOpt, SampleResolutionTest, WaveTrack.GetClipAtTime,
    WaveClip.TimeToSamples, WaveClip.SamplesToTime, ViewInfo.PositionToTime,
    ViewInfo.TimeToPosition, findPrevInterval,
    findPrevInterval.findPrevIntervalGo, cx7Evt, cx7Handle, cx7Proj,
    cx7Track, testClip, testView, testRect, testMouse, List.find?]

/-- C7 counterexample: in the drawing Drag, the new level is computed with
the envelope evaluated at `t0` (the time of `lastDragPixel`), not at `t1`
as the claim states.  With an envelope worth 1 at `t0 = 0` and 2 at
`t1 = 4`, the source records level 1 while the claim's level at `t1`
is 1/2. -/
theorem drag_level_uses_previous_time :
    (Drag cx7Handle cx7Evt cx7Proj).handle.mLastDragSampleValue = 1 ∧
    dragLevelAtT1Spec cx7Handle cx7Track cx7Evt.event cx7Proj.viewInfo =
      1/2 ∧
    (1 : ℚ) ≠ 1/2 := by
  refine ⟨?_, ?_, by norm_num⟩
  · norm_num [Drag, IsSampleEditingPossible, adjustTimeOpt, adjustTime,
      SampleResolutionTestOpt, SampleResolutionTest, WaveTrack.GetClipAtTime,
      WaveClip.TimeToSamples, WaveClip.SamplesToTime, ViewInfo.PositionToTime,
      ViewInfo.PositionToTime1, ViewInfo.TimeToPosition, findPrevInterval,
      findPrevInterval.findPrevIntervalGo, FindSampleEditingLevel,
      ValueOfPixel, WaveTrack.GetEnvelopeAtTime, cx7Evt, cx7Handle, cx7Proj,
      cx7Track, testClip, testView, testRect, testMouse, List.find?]
  · norm_num [dragLevelAtT1Spec, FindSampleEditingLevel, ValueOfPixel,
      ViewInfo.PositionToTime, WaveTrack.GetEnvelopeAtTime, cx7Handle,
      cx7Track, cx7Evt, cx7Proj, testView, testRect, testMouse, testClip]

/-- C7 (amended): on a drawing Drag that passes its checks, `t0` is the time
of `lastDragPixel` and `t1` the live cursor time; the new level is computed
by the amplitude transform with the envelope evaluated at `t0` (not `t1`);
the interpolator is range-written over exactly
`[min(t0, t1), max(t0, t1)]` (the live cursor `t1`, regardless of the lock
modifier); and `lastDragPixel` is updated to the endpoint pixel — pinned to
`startPixel` when the lock-horizontal modifier is held — while
`lastDragSampleValue` becomes the new level. -/
theorem drag_drawing_behavior
    (h : SampleHandleState) (evt : TrackPanelMouseEvent) (p : Project)
    (wt : WaveTrack) (htr : h.mClickedTrack = some wt)
    (hq : p.audioActive = false)
    (hvis : IsSampleEditingPossible evt.event h.mRect p.viewInfo (some wt)
      h.mRect.width = true)
    (halt : h.mAltKey = false) :
    (Drag h evt p).project.buffer =
      SetFloatsWithinTimeRange wt p.buffer
        (min (p.viewInfo.PositionToTime1 h.mLastDragPixel)
          (p.viewInfo.PositionToTime evt.event.x h.mRect.x))
        (max (p.viewInfo.PositionToTime1 h.mLastDragPixel)
          (p.viewInfo.PositionToTime evt.event.x h.mRect.x))
        (interpolator (p.viewInfo.PositionToTime1 h.mLastDragPixel)
          (p.viewInfo.PositionToTime evt.event.x h.mRect.x)
          h.mLastDragSampleValue
          (FindSampleEditingLevel h wt evt.event p.viewInfo
            (p.viewInfo.PositionToTime1 h.mLastDragPixel))) ∧
    (Drag h evt p).handle.mLastDragPixel =
      (if evt.event.controlDown then h.mClickedStartPixel
       else p.viewInfo.TimeToPosition
         (p.viewInfo.PositionToTime evt.event.x h.mRect.x)) ∧
    (Drag h evt p).handle.mLastDragSampleValue =
      FindSampleEditingLevel h wt evt.event p.viewInfo
        (p.viewInfo.PositionToTime1 h.mLastDragPixel) ∧
    (Drag h evt p).result = RefreshCell := by
  unfold Drag
  simp only [htr, hq, hvis, halt, Bool.not_true, Bool.or_false,
    Bool.false_or, Bool.false_eq_true, if_false]
  exact ⟨trivial, trivial, trivial, trivial⟩

/-- Witness for C7's amended theorem at the concrete C7 fixtures. -/
theorem drag_drawing_behavior_witness :
    cx7Handle.mClickedTrack = some cx7Track ∧
    cx7Proj.audioActive = false ∧
    cx7Handle.mAltKey = false ∧
    (Drag cx7Handle cx7Evt cx7Proj).handle.mLastDragSampleValue =
      FindSampleEditingLevel cx7Handle cx7Track cx7Evt.event
        cx7Proj.viewInfo
        (cx7Proj.viewInfo.PositionToTime1 cx7Handle.mLastDragPixel) ∧
    (Drag cx7Handle cx7Evt cx7Proj).result = RefreshCell :=
  ⟨rfl, rfl, rfl,
   (drag_drawing_behavior cx7Handle cx7Evt cx7Proj cx7Track rfl rfl
      cx7EditingPossible rfl).2.2.1,
   (drag_drawing_behavior cx7Handle cx7Evt cx7Proj cx7Track rfl rfl
      cx7EditingPossible rfl).2.2.2⟩

/-- Helper: the triangular kernel weights over `[-K, K]` total
`(K+1)^2 = 16` — the source's normalization constant. -/
theorem kernelWeight_sum :
    (∑ ii ∈ Finset.Icc (-SMOOTHING_KERNEL_RADIUS) SMOOTHING_KERNEL_RADIUS,
      kernelWeight ii) = 16 := by
  have hz : (∑ ii ∈ Finset.Icc (-(3:ℤ)) 3, (3 + 1 - |ii|)) = 16 := by
    decide
  unfold kernelWeight SMOOTHING_KERNEL_RADIUS
  rw [← Int.cast_sum]
  rw [hz]
  norm_num

/-- Helper: each triangular kernel weight is nonnegative on `[-K, K]`. -/
theorem kernelWeight_nonneg (ii : ℤ) (h1 : -SMOOTHING_KERNEL_RADIUS ≤ ii)
    (h2 : ii ≤ SMOOTHING_KERNEL_RADIUS) : 0 ≤ kernelWeight ii := by
  simp only [SMOOTHING_KERNEL_RADIUS] at h1 h2
  have ha : |ii| ≤ 3 := abs_le.mpr ⟨h1, h2⟩
  have hz : (0:ℤ) ≤ 3 + 1 - |ii| := by linarith
  unfold kernelWeight SMOOTHING_KERNEL_RADIUS
  exact_mod_cast hz

/-- C8: the smoothing blend's mix proportion is
`0.7 − (|j|/5) × 0.7`: exactly `0.7` at the center `j = 0` and exactly `0`
at the brush edges `j = ±5`, where the original sample is written back
unchanged; and with the full window valid and every input sample `0.5`,
every one of the `2B+1` output values equals `0.5`. -/
theorem smoothing_mix_proportion :
    (∀ jj : ℤ, mixProportion jj = 7/10 - ((|jj| : ℤ) : ℚ) / 5 * (7/10)) ∧
    mixProportion 0 = 7/10 ∧
    mixProportion 5 = 0 ∧
    mixProportion (-5) = 0 ∧
    (∀ (region : ℤ → ℚ) (first second : ℤ),
      newSampleRegion region first second 5 = region 13 ∧
      newSampleRegion region first second (-5) = region 3) ∧
    (∀ region : ℤ → ℚ,
      (∀ idx : ℤ, 0 ≤ idx → idx < 17 → region idx = 1/2) →
      ∀ jj : ℤ, -5 ≤ jj → jj ≤ 5 →
        newSampleRegion region 0 17 jj = 1/2) := by
  have hform : ∀ jj : ℤ, mixProportion jj =
      7/10 - ((|jj| : ℤ) : ℚ) / 5 * (7/10) := by
    intro jj
    norm_num [mixProportion, SMOOTHING_PROPORTION_MAX,
      SMOOTHING_PROPORTION_MIN, SMOOTHING_BRUSH_RADIUS]
  have h5 : mixProportion 5 = 0 := by
    rw [hform]
    norm_num
  have h5n : mixProportion (-5) = 0 := by
    rw [hform]
    norm_num
  refine ⟨hform, by rw [hform]; norm_num, h5, h5n, ?_, ?_⟩
  · intro region first second
    constructor
    · simp only [newSampleRegion, h5, SMOOTHING_BRUSH_RADIUS,
        SMOOTHING_KERNEL_RADIUS]
      norm_num
    · simp only [newSampleRegion, h5n, SMOOTHING_BRUSH_RADIUS,
        SMOOTHING_KERNEL_RADIUS]
      norm_num
  · intro region hreg jj hj1 hj2
    have hsum : sumOfSamples region 0 17 jj = 8 := by
      have hterm : ∀ ii ∈ Finset.Icc (-SMOOTHING_KERNEL_RADIUS)
          SMOOTHING_KERNEL_RADIUS,
          (if 0 ≤ ii + jj + SMOOTHING_KERNEL_RADIUS +
                SMOOTHING_BRUSH_RADIUS ∧
              ii + jj + SMOOTHING_KERNEL_RADIUS + SMOOTHING_BRUSH_RADIUS <
                17
           then kernelWeight ii * region (ii + jj +
              SMOOTHING_KERNEL_RADIUS + SMOOTHING_BRUSH_RADIUS)
           else 0) = kernelWeight ii * (1/2) := by
        intro ii hii
        rw [Finset.mem_Icc] at hii
        have h1 : 0 ≤ ii + jj + SMOOTHING_KERNEL_RADIUS +
            SMOOTHING_BRUSH_RADIUS := by
          simp only [SMOOTHING_KERNEL_RADIUS, SMOOTHING_BRUSH_RADIUS]
            at hii ⊢
          omega
        have h2 : ii + jj + SMOOTHING_KERNEL_RADIUS +
            SMOOTHING_BRUSH_RADIUS < 17 := by
          simp only [SMOOTHING_KERNEL_RADIUS, SMOOTHING_BRUSH_RADIUS]
            at hii ⊢
          omega
        rw [if_pos ⟨h1, h2⟩, hreg _ h1 h2]
      unfold sumOfSamples
      rw [Finset.sum_congr rfl hterm, ← Finset.sum_mul, kernelWeight_sum]
      norm_num
    unfold newSampleRegion smoothedCandidate
    rw [hsum, hreg (SMOOTHING_BRUSH_RADIUS + SMOOTHING_KERNEL_RADIUS + jj)
      (by simp only [SMOOTHING_BRUSH_RADIUS, SMOOTHING_KERNEL_RADIUS]; omega)
      (by simp only [SMOOTHING_BRUSH_RADIUS, SMOOTHING_KERNEL_RADIUS]; omega)]
    have h16 : (((SMOOTHING_KERNEL_RADIUS + 1) *
        (SMOOTHING_KERNEL_RADIUS + 1) : ℤ) : ℚ) = 16 := by
      norm_num [SMOOTHING_KERNEL_RADIUS]
    rw [h16]
    ring

/-- Witness for C8's constant-signal conjunct at `j = 2`. -/
theorem smoothing_mix_proportion_witness :
    (∀ idx : ℤ, 0 ≤ idx → idx < 17 → (fun _ : ℤ => (1/2 : ℚ)) idx = 1/2) ∧
    ((-5 : ℤ) ≤ 2 ∧ (2 : ℤ) ≤ 5) ∧
    newSampleRegion (fun _ => 1/2) 0 17 2 = 1/2 :=
  ⟨fun _ _ _ => rfl, ⟨by norm_num, by norm_num⟩,
   smoothing_mix_proportion.2.2.2.2.2 (fun _ => 1/2) (fun _ _ _ => rfl) 2
     (by norm_num) (by norm_num)⟩

/-- C9: whenever every valid sample of the neighborhood lies in `[-1, 1]` —
including truncated neighborhoods, whose out-of-range indices are skipped
from the kernel sums while the normalization constant `(K+1)^2` is kept —
every output value the smoothing pass writes back (i.e. every brush offset
whose own position lies in the valid range, the positions the neighborhood
write persists) lies in `[-1, 1]`. -/
theorem smoothing_preserves_unit_bound
    (region : ℤ → ℚ) (first second : ℤ)
    (hb : ∀ idx : ℤ, first ≤ idx → idx < second → |region idx| ≤ 1)
    (jj : ℤ) (hj1 : -SMOOTHING_BRUSH_RADIUS ≤ jj)
    (hj2 : jj ≤ SMOOTHING_BRUSH_RADIUS)
    (hv1 : first ≤ SMOOTHING_BRUSH_RADIUS + SMOOTHING_KERNEL_RADIUS + jj)
    (hv2 : SMOOTHING_BRUSH_RADIUS + SMOOTHING_KERNEL_RADIUS + jj < second) :
    |newSampleRegion region first second jj| ≤ 1 := by
  have habs : |sumOfSamples region first second jj| ≤ 16 := by
    unfold sumOfSamples
    refine le_trans (Finset.abs_sum_le_sum_abs _ _) ?_
    rw [← kernelWeight_sum]
    refine Finset.sum_le_sum ?_
    intro ii hii
    rw [Finset.mem_Icc] at hii
    have hw : 0 ≤ kernelWeight ii := kernelWeight_nonneg ii hii.1 hii.2
    by_cases hc : first ≤ ii + jj + SMOOTHING_KERNEL_RADIUS +
        SMOOTHING_BRUSH_RADIUS ∧
        ii + jj + SMOOTHING_KERNEL_RADIUS + SMOOTHING_BRUSH_RADIUS < second
    · rw [if_pos hc, abs_mul, abs_of_nonneg hw]
      exact mul_le_of_le_one_right hw (hb _ hc.1 hc.2)
    · rw [if_neg hc]
      simpa using hw
  have hcand : |smoothedCandidate region first second jj| ≤ 1 := by
    unfold smoothedCandidate
    have h16 : (((SMOOTHING_KERNEL_RADIUS + 1) *
        (SMOOTHING_KERNEL_RADIUS + 1) : ℤ) : ℚ) = 16 := by
      norm_num [SMOOTHING_KERNEL_RADIUS]
    rw [h16, abs_div, abs_of_nonneg (by norm_num : (0:ℚ) ≤ 16),
      div_le_one (by norm_num)]
    exact habs
  have hjq : |(jj : ℚ)| ≤ 5 := by
    simp only [SMOOTHING_BRUSH_RADIUS] at hj1 hj2
    rw [← Int.cast_abs]
    exact_mod_cast abs_le.mpr ⟨hj1, hj2⟩
  have hjq0 : (0:ℚ) ≤ |(jj : ℚ)| := abs_nonneg _
  have hp0 : 0 ≤ mixProportion jj := by
    unfold mixProportion SMOOTHING_PROPORTION_MAX SMOOTHING_PROPORTION_MIN
      SMOOTHING_BRUSH_RADIUS
    push_cast
    linarith
  have hp1 : mixProportion jj ≤ 1 := by
    unfold mixProportion SMOOTHING_PROPORTION_MAX SMOOTHING_PROPORTION_MIN
      SMOOTHING_BRUSH_RADIUS
    push_cast
    linarith
  have ho : |region (SMOOTHING_BRUSH_RADIUS + SMOOTHING_KERNEL_RADIUS +
      jj)| ≤ 1 := hb _ hv1 hv2
  unfold newSampleRegion
  refine le_trans (abs_add _ _) ?_
  rw [abs_mul, abs_mul, abs_of_nonneg hp0,
    abs_of_nonneg (by linarith : (0:ℚ) ≤ 1 - mixProportion jj)]
  have hA : |smoothedCandidate region first second jj| * mixProportion jj ≤
      1 * mixProportion jj :=
    mul_le_mul_of_nonneg_right hcand hp0
  have hB : |region (SMOOTHING_BRUSH_RADIUS + SMOOTHING_KERNEL_RADIUS +
      jj)| * (1 - mixProportion jj) ≤ 1 * (1 - mixProportion jj) :=
    mul_le_mul_of_nonneg_right ho (by linarith)
  linarith

/-- Witness for C9 at the constant-1 neighborhood, brush center. -/
theorem smoothing_preserves_unit_bound_witness :
    (∀ idx : ℤ, (0:ℤ) ≤ idx → idx < 17 →
      |(fun _ : ℤ => (1:ℚ)) idx| ≤ 1) ∧
    (-SMOOTHING_BRUSH_RADIUS ≤ (0:ℤ) ∧ (0:ℤ) ≤ SMOOTHING_BRUSH_RADIUS) ∧
    ((0:ℤ) ≤ SMOOTHING_BRUSH_RADIUS + SMOOTHING_KERNEL_RADIUS + 0 ∧
      SMOOTHING_BRUSH_RADIUS + SMOOTHING_KERNEL_RADIUS + 0 < 17) ∧
    |newSampleRegion (fun _ => 1) 0 17 0| ≤ 1 :=
  ⟨fun _ _ _ => by norm_num, ⟨by decide, by decide⟩, ⟨by decide, by decide⟩,
   smoothing_preserves_unit_bound (fun _ => 1) 0 17
     (fun _ _ _ => by norm_num) 0 (by decide) (by decide) (by decide)
     (by decide)⟩

/-- C10: `HitTest` yields a handle exactly when the resolution test passes,
the single-sample read succeeds, and the pointer's vertical distance from
the sample's displayed position (its amplitude scaled by the envelope value
at the snapped time) is strictly less than 10 pixels; and it never shows a
user message. -/
theorem hitTest_tolerance_gate (state : MouseEvent) (rect : Rect)
    (p : Project) (wt : WaveTrack) :
    ((HitTest state rect p wt).1.isSome = true ↔
      (SampleResolutionTest p.viewInfo wt
          (adjustTime wt (p.viewInfo.PositionToTime state.x rect.x))
          rect.width = true ∧
       ∃ s, GetFloatAtTime wt p.buffer
            (adjustTime wt (p.viewInfo.PositionToTime state.x rect.x)) =
          some s ∧
         |hitYValue wt rect s
            (hitEnvValue wt (p.viewInfo.PositionToTime state.x rect.x)
              (adjustTime wt (p.viewInfo.PositionToTime state.x rect.x))) -
          state.y| < 10)) ∧
    (HitTest state rect p wt).2 = [] := by
  unfold HitTest
  by_cases hres : SampleResolutionTest p.viewInfo wt
      (adjustTime wt (p.viewInfo.PositionToTime state.x rect.x))
      rect.width = true
  · rw [hres]
    cases hread : GetFloatAtTime wt p.buffer
        (adjustTime wt (p.viewInfo.PositionToTime state.x rect.x)) with
    | none => simp [hread]
    | some s =>
        by_cases habs : |hitYValue wt rect s
            (hitEnvValue wt (p.viewInfo.PositionToTime state.x rect.x)
              (adjustTime wt (p.viewInfo.PositionToTime state.x rect.x))) -
            state.y| ≥ 10
        · simp [hread, habs]
        · push_neg at habs
          have habs' : ¬(10 ≤ |hitYValue wt rect s
              (hitEnvValue wt (p.viewInfo.PositionToTime state.x rect.x)
                (adjustTime wt (p.viewInfo.PositionToTime state.x
                  rect.x))) - state.y|) := not_le.mpr habs
          simp [hread, hres, habs, habs']
  · simp only [Bool.not_eq_true] at hres
    rw [hres]
    simp [hres]

/-- Witness for C10: a concrete hover that passes all three gates. -/
theorem hitTest_tolerance_gate_witness :
    (HitTest testMouse testRect testProj testTrack).1.isSome = true ∧
    (HitTest testMouse testRect testProj testTrack).2 = [] :=
  ⟨(hitTest_tolerance_gate testMouse testRect testProj testTrack).1.mpr
     ⟨by norm_num [SampleResolutionTest, adjustTime, WaveTrack.GetClipAtTime,
        WaveClip.TimeToSamples, WaveClip.SamplesToTime,
        ViewInfo.PositionToTime, ViewInfo.TimeToPosition, findPrevInterval,
        findPrevInterval.findPrevIntervalGo, testProj, testTrack, testClip,
        testView, testRect, testMouse, List.find?],
      0,
      by norm_num [GetFloatAtTime, adjustTime, WaveTrack.GetClipAtTime,
        WaveClip.TimeToSamples, WaveClip.SamplesToTime,
        ViewInfo.PositionToTime, testProj, testTrack, testClip, testView,
        testRect, testMouse, List.find?],
      by norm_num [hitYValue, hitEnvValue, GetWaveYPos, adjustTime,
        WaveTrack.GetClipAtTime, WaveTrack.GetEnvelopeAtTime,
        WaveClip.TimeToSamples, WaveClip.SamplesToTime,
        ViewInfo.PositionToTime, testProj, testTrack, testClip, testView,
        testRect, testMouse, List.find?]⟩,
   (hitTest_tolerance_gate testMouse testRect testProj testTrack).2⟩

end SampleEdit
